import Mathlib

/-!
Shallow embedding of the conversation-memory core and the provider/image
route handlers of the Mod AI assistant web application.

The `ConversationMemory` class (conversation store) keeps a JavaScript
`Map` from conversation id to conversation record.  A `Map` preserves
insertion order, holds at most one entry per key, `set` on an existing key
overwrites the value in place, and `delete` removes the entry with the
given key.  We model it as a `List Conversation` keyed by the `id` field
(`mapGet`/`mapSet`/`mapDelete`), with key-uniqueness (`Nodup` on ids) as
the invariant a real `Map` maintains.

`Date` values are modelled as natural-number timestamps.  Generated ids
and current-time values (`Date.now()`, `Math.random()`) are
nondeterministic in the source; the embedding passes them in as explicit
parameters.
-/

/-- Message role: the `"user" | "assistant"` union type of the source. -/
inductive Role where
  | user
  | assistant
deriving DecidableEq, Repr

/-- Optional per-message metadata `{tokens?, cost?, provider?}`.
The `cost` field is a JS number used only informationally; we model it as
a rational. -/
structure MessageMetadata where
  tokens : Option Nat := none
  cost : Option ℚ := none
  provider : Option String := none
deriving DecidableEq, Repr

/-- The `ConversationMessage` interface. -/
structure ConversationMessage where
  id : String
  content : String
  role : Role
  timestamp : Nat
  model : Option String := none
  metadata : Option MessageMetadata := none
deriving DecidableEq, Repr

/-- The `Conversation` interface. -/
structure Conversation where
  id : String
  title : String
  messages : List ConversationMessage
  model : String
  createdAt : Nat
  updatedAt : Nat
deriving DecidableEq, Repr

/-- The in-memory state of the `ConversationMemory` class: the `Map` of
conversations (insertion-ordered) and the current-conversation marker. -/
structure ConversationMemory where
  conversations : List Conversation
  currentConversationId : Option String
deriving DecidableEq, Repr

/-- `MAX_CONVERSATIONS = 50`. -/
def MAX_CONVERSATIONS : Nat := 50

/-- `MAX_MESSAGES_PER_CONVERSATION = 100`. -/
def MAX_MESSAGES_PER_CONVERSATION : Nat := 100

/-- `Map.get(id)`: the entry with the given key, if present. -/
def mapGet (l : List Conversation) (id : String) : Option Conversation :=
  l.find? (fun c => c.id = id)

/-- `Map.set(c.id, c)`: overwrite in place when the key is present,
otherwise append at the end (JS `Map`s preserve insertion order). -/
def mapSet (l : List Conversation) (c : Conversation) : List Conversation :=
  if l.any (fun x => x.id = c.id) then
    l.map (fun x => if x.id = c.id then c else x)
  else l ++ [c]

/-- `Map.delete(id)`: remove the entry with the given key. -/
def mapDelete (l : List Conversation) (id : String) : List Conversation :=
  l.filter (fun c => c.id ≠ id)

/-- `Array.prototype.slice(-n)`: the last `n` elements (the whole list
when it is shorter than `n`). -/
def takeLast (n : Nat) (l : List α) : List α :=
  l.drop (l.length - n)

/-- The caller-supplied part of a message,
`Omit<ConversationMessage, "id" | "timestamp">`. -/
structure MessageInput where
  content : String
  role : Role
  model : Option String := none
  metadata : Option MessageMetadata := none
deriving DecidableEq, Repr

/-- The message record `addMessage` builds: caller fields plus the
generated id and the current timestamp. -/
def mkConversationMessage (input : MessageInput) (newId : String) (now : Nat) :
    ConversationMessage :=
  { id := newId, content := input.content, role := input.role, timestamp := now,
    model := input.model, metadata := input.metadata }

/-- The title `addMessage` derives from a first user message:
`content.slice(0, 50) + (content.length > 50 ? "..." : "")`. -/
def mkTitle (content : String) : String :=
  content.take 50 ++ (if content.length > 50 then "..." else "")

/-- The per-conversation body of `addMessage`: push the new message,
refresh `updatedAt`, set the title when the pushed message is the first
one and has role user, then truncate to the most recent
`MAX_MESSAGES_PER_CONVERSATION` messages when the cap is exceeded. -/
def appendToConversation (c : Conversation) (input : MessageInput)
    (newId : String) (now : Nat) : Conversation :=
  let newMessage := mkConversationMessage input newId now
  let msgs := c.messages ++ [newMessage]
  let title :=
    if msgs.length = 1 ∧ input.role = Role.user then mkTitle input.content
    else c.title
  let msgs2 :=
    if msgs.length > MAX_MESSAGES_PER_CONVERSATION then
      takeLast MAX_MESSAGES_PER_CONVERSATION msgs
    else msgs
  { c with messages := msgs2, updatedAt := now, title := title }

/-- `addMessage(conversationId, message)`: no-op when the conversation is
absent; otherwise update the stored conversation in place. -/
def addMessage (s : ConversationMemory) (conversationId : String)
    (input : MessageInput) (newId : String) (now : Nat) : ConversationMemory :=
  match mapGet s.conversations conversationId with
  | none => s
  | some _ =>
      { s with conversations :=
          s.conversations.map (fun c =>
            if c.id = conversationId then appendToConversation c input newId now
            else c) }

/-- The fresh conversation record `createConversation` allocates. -/
def newConversation (model : String) (id : String) (now : Nat) : Conversation :=
  { id := id, title := "New Conversation", messages := [], model := model,
    createdAt := now, updatedAt := now }

/-- `Array.from(map.values()).sort((a, b) => a.updatedAt - b.updatedAt)[0]`:
the first element (in insertion order, since the sort is stable) among
those with minimal `updatedAt`. -/
def findOldest : List Conversation → Option Conversation
  | [] => none
  | c :: rest =>
      some (rest.foldl
        (fun best x => if x.updatedAt < best.updatedAt then x else best) c)

/-- `createConversation(model)`: insert a fresh conversation, mark it
current, and evict the least-recently-updated conversation when the count
now exceeds `MAX_CONVERSATIONS`.  Returns the updated store and the new
id. -/
def createConversation (s : ConversationMemory) (model : String)
    (newId : String) (now : Nat) : ConversationMemory × String :=
  let conversation := newConversation model newId now
  let convs := mapSet s.conversations conversation
  let convs2 :=
    if convs.length > MAX_CONVERSATIONS then
      match findOldest convs with
      | some oldest => mapDelete convs oldest.id
      | none => convs
    else convs
  ({ conversations := convs2, currentConversationId := some newId }, newId)

/-- `getConversation(id)`. -/
def getConversation (s : ConversationMemory) (id : String) : Option Conversation :=
  mapGet s.conversations id

/-- `deleteConversation(id)`: remove the entry and clear the current
marker when it pointed at the deleted conversation. -/
def deleteConversation (s : ConversationMemory) (id : String) : ConversationMemory :=
  { conversations := mapDelete s.conversations id,
    currentConversationId :=
      if s.currentConversationId = some id then none
      else s.currentConversationId }

/-- `setCurrentConversation(id)`: unconditional assignment. -/
def setCurrentConversation (s : ConversationMemory) (id : String) :
    ConversationMemory :=
  { s with currentConversationId := some id }

/-- `getCurrentConversationId()`. -/
def getCurrentConversationId (s : ConversationMemory) : Option String :=
  s.currentConversationId

/-- `clearAllConversations()`. -/
def clearAllConversations (_s : ConversationMemory) : ConversationMemory :=
  { conversations := [], currentConversationId := none }

/-- `exportConversations()` serializes `Array.from(map.values())` with
`JSON.stringify`; at the level of parsed values the snapshot is the list
of stored conversations (well-formed records round-trip through JSON,
dates via their ISO strings). -/
def exportConversations (s : ConversationMemory) : List Conversation :=
  s.conversations

/-- One element of a parsed JSON array handed to `importConversations`:
either a record that converts to a `Conversation`, or a value on which the
per-element conversion (`conv.messages.map(...)`, `new Date(...)`) throws
a `TypeError` (for example the array element `0` of the input `"[0]"`). -/
inductive JsonElem where
  | good (c : Conversation)
  | bad
deriving DecidableEq, Repr

/-- The outcome of `JSON.parse` on an `importConversations` input string:
the parse throws, or yields a non-array value, or yields an array of
elements. -/
inductive ParseResult where
  | failure
  | nonArray
  | array (elems : List JsonElem)
deriving DecidableEq, Repr

/-- The `data.forEach` loop of `importConversations`, run after
`conversations.clear()`: convert and `Map.set` each element in order; a
throwing element aborts the loop (the exception lands in the surrounding
`catch`, which returns `false`), leaving the entries inserted so far. -/
def importLoop : List JsonElem → List Conversation → List Conversation × Bool
  | [], acc => (acc, true)
  | JsonElem.good c :: rest, acc => importLoop rest (mapSet acc c)
  | JsonElem.bad :: _, acc => (acc, false)

/-- `importConversations(jsonData)`: parse; on an array, clear the map and
insert every element (stopping at a throwing element); return `false` on
parse failure, non-array input, or a thrown conversion, else `true`.  The
current-conversation marker is never touched. -/
def importConversations (s : ConversationMemory) (p : ParseResult) :
    ConversationMemory × Bool :=
  match p with
  | ParseResult.failure => (s, false)
  | ParseResult.nonArray => (s, false)
  | ParseResult.array elems =>
      let r := importLoop elems []
      ({ s with conversations := r.1 }, r.2)

/-- Token estimate of one message:
`Math.ceil(message.content.length / 4)`. -/
def estimatedTokens (m : ConversationMessage) : Nat :=
  (m.content.length + 3) / 4

/-- Sum of the token estimates of a list of messages. -/
def sumTokens (l : List ConversationMessage) : Nat :=
  (l.map estimatedTokens).sum

/-- The accumulation loop of `getContextMessages`, processing messages
from most recent to oldest (`l` is the reversed message list): break at
the first message whose estimate would push the running total past the
budget, unless nothing has been accumulated yet; otherwise prepend
(`unshift`) and continue. -/
def ctxAux (maxTokens : Int) :
    List ConversationMessage → Int → List ConversationMessage →
    List ConversationMessage
  | [], _, acc => acc
  | m :: rest, tot, acc =>
      if tot + (estimatedTokens m : Int) > maxTokens ∧ acc ≠ [] then acc
      else ctxAux maxTokens rest (tot + (estimatedTokens m : Int)) (m :: acc)

/-- The body of `getContextMessages` on a conversation's message list. -/
def contextFromMessages (msgs : List ConversationMessage) (maxTokens : Int) :
    List ConversationMessage :=
  ctxAux maxTokens msgs.reverse 0 []

/-- `getContextMessages(conversationId, maxTokens)`: empty for an absent
conversation, otherwise the budget-limited suffix of its messages. -/
def getContextMessages (s : ConversationMemory) (conversationId : String)
    (maxTokens : Int) : List ConversationMessage :=
  match mapGet s.conversations conversationId with
  | none => []
  | some c => contextFromMessages c.messages maxTokens

/-- The two chat backends the route handler dispatches between. -/
inductive Provider where
  | groq
  | openRouter
deriving DecidableEq, Repr

/-- The allow-list inside `isGroqModel`. -/
def groqModels : List String :=
  ["llama-3.3-70b-versatile",
   "llama-3.1-8b-instant",
   "llama3-70b-8192",
   "llama3-8b-8192",
   "gemma2-9b-it"]

/-- `isGroqModel(modelId)`: membership in the allow-list. -/
def isGroqModel (modelId : String) : Bool :=
  groqModels.contains modelId

/-- The provider decision of the chat route handler:
`if (isGroqModel(model)) { provider = "Groq"; ... } else { /* OpenRouter */ }`. -/
def routeProvider (modelId : String) : Provider :=
  if isGroqModel modelId then Provider.groq else Provider.openRouter

/-- Hexadecimal digit (uppercase), as `encodeURIComponent` produces. -/
def hexDigitChar (n : Nat) : Char :=
  if n < 10 then Char.ofNat (48 + n) else Char.ofNat (55 + n)

/-- UTF-8 encoding of one code point, as a list of byte values. -/
def utf8Bytes (c : Char) : List Nat :=
  let n := c.toNat
  if n < 128 then [n]
  else if n < 2048 then [192 + n / 64, 128 + n % 64]
  else if n < 65536 then
    [224 + n / 4096, 128 + (n / 64) % 64, 128 + n % 64]
  else
    [240 + n / 262144, 128 + (n / 4096) % 64, 128 + (n / 64) % 64, 128 + n % 64]

/-- `%HH` escape of one byte. -/
def percentEncodeByte (b : Nat) : String :=
  "%" ++ String.singleton (hexDigitChar (b / 16)) ++
    String.singleton (hexDigitChar (b % 16))

/-- Characters `encodeURIComponent` leaves unescaped:
`A-Z a-z 0-9 - _ . ! ~ * ' ( )`. -/
def isUnreservedUriChar (c : Char) : Bool :=
  c.isAlphanum || c = '-' || c = '_' || c = '.' || c = '!' || c = '~' ||
    c = '*' || c = Char.ofNat 39 || c = '(' || c = ')'

/-- `encodeURIComponent`. -/
def encodeURIComponent (s : String) : String :=
  s.data.foldl
    (fun acc c =>
      acc ++
        (if isUnreservedUriChar c then String.singleton c
         else String.join ((utf8Bytes c).map percentEncodeByte)))
    ""

/-- `generateAdvancedPlaceholder(prompt, size)`: parse the dimensions,
infer a category and color from keyword matches against the lowercased
prompt, truncate the prompt to 100 characters, and build the
`/placeholder.svg` URL. -/
def generateAdvancedPlaceholder (prompt : String) (size : String) : String :=
  let dims := (size.splitOn "x").map (fun t => (t.toNat?).getD 0)
  let width := dims.headD 0
  let height := (dims.drop 1).headD 0
  let keywords := (prompt.toLower).splitOn " "
  let cc :=
    if keywords.any (fun w =>
        ["person", "human", "man", "woman", "portrait"].contains w) then
      ("portrait", "purple")
    else if keywords.any (fun w =>
        ["landscape", "nature", "mountain", "forest", "ocean"].contains w) then
      ("landscape", "green")
    else if keywords.any (fun w =>
        ["city", "building", "urban", "street"].contains w) then
      ("urban", "gray")
    else if keywords.any (fun w =>
        ["animal", "cat", "dog", "bird", "wildlife"].contains w) then
      ("animal", "orange")
    else if keywords.any (fun w =>
        ["food", "cooking", "meal", "restaurant"].contains w) then
      ("food", "red")
    else ("abstract", "blue")
  let truncatedPrompt :=
    if prompt.length > 100 then prompt.take 100 ++ "..." else prompt
  "/placeholder.svg?height=" ++ toString height ++ "&width=" ++ toString width ++
    "&text=" ++ encodeURIComponent truncatedPrompt ++
    "&category=" ++ cc.1 ++ "&color=" ++ cc.2

/-- The emergency placeholder URL built in the outer `catch` of the image
route handler. -/
def emergencyPlaceholderUrl : String :=
  "/placeholder.svg?height=512&width=512&text=" ++
    encodeURIComponent "Image Generation Error"

/-- Outcome of the upstream image-generation `fetch`: a 2xx response
carrying the `data` array of image URLs (possibly missing/empty), a
non-success HTTP status, or a thrown transport error. -/
inductive UpstreamOutcome where
  | ok (urls : List String)
  | httpError
  | transportError
deriving DecidableEq, Repr

/-- Does the upstream outcome fail to deliver image data (non-success
status, thrown error, or a success body with no `data` entries)? -/
def isFailureOutcome : UpstreamOutcome → Bool
  | UpstreamOutcome.ok urls => urls.isEmpty
  | UpstreamOutcome.httpError => true
  | UpstreamOutcome.transportError => true

/-- One entry of the `images` array of the image route's JSON response. -/
structure ImageItem where
  url : String
  prompt : String
  model : String
deriving DecidableEq, Repr

/-- The observable parts of the image route's HTTP response: status code,
`images` array, `metadata.provider`, `metadata.fallback` (absent when the
serialized metadata object has no such key), the top-level `fallback`
key, and the top-level `error` key. -/
structure ImageResponse where
  status : Nat
  images : List ImageItem
  metadataProvider : String
  metadataFallback : Option Bool
  fallbackTop : Option Bool
  error : Option String
deriving DecidableEq, Repr

/-- The placeholder response of the image route's normal fallback path
(HTTP 200, placeholder image, `metadata.fallback: true`). -/
def fallbackImageResponse (prompt model size : String) : ImageResponse :=
  { status := 200,
    images := [{ url := generateAdvancedPlaceholder prompt size,
                 prompt := prompt, model := model }],
    metadataProvider := "MOD AI Placeholder",
    metadataFallback := some true,
    fallbackTop := none,
    error := none }

/-- The image route `POST` handler.  `hasApiKey` tells whether any
OpenRouter key is configured (`getRandomApiKey` throws when not, landing
in the outer `catch`, whose emergency body carries `fallback: true` at
the top level and a metadata object without a `fallback` key).  With a
key, the upstream outcome decides between the success response and the
placeholder fallback. -/
def imagePost (hasApiKey : Bool) (prompt model size : String)
    (outcome : UpstreamOutcome) : ImageResponse :=
  if prompt = "" then
    { status := 400, images := [], metadataProvider := "",
      metadataFallback := none, fallbackTop := none,
      error := some "Prompt is required" }
  else if !hasApiKey then
    { status := 200,
      images := [{ url := emergencyPlaceholderUrl,
                   prompt := "Error generating image", model := "fallback" }],
      metadataProvider := "Emergency Fallback",
      metadataFallback := none,
      fallbackTop := some true,
      error := some "Image generation failed" }
  else
    match outcome with
    | UpstreamOutcome.ok urls =>
        if urls.length > 0 then
          { status := 200,
            images := urls.map (fun u =>
              { url := u, prompt := prompt, model := model }),
            metadataProvider := "OpenRouter",
            metadataFallback := none,
            fallbackTop := none,
            error := none }
        else fallbackImageResponse prompt model size
    | UpstreamOutcome.httpError => fallbackImageResponse prompt model size
    | UpstreamOutcome.transportError => fallbackImageResponse prompt model size

/-- A sequence of sequential `addMessage` calls on one conversation, each
with its caller-supplied message plus the generated id and timestamp. -/
def foldAppend (c : Conversation)
    (inputs : List (MessageInput × String × Nat)) : Conversation :=
  inputs.foldl (fun conv t => appendToConversation conv t.1 t.2.1 t.2.2) c

/-- The capacity invariants of the store: at most `MAX_CONVERSATIONS`
conversations, each with at most `MAX_MESSAGES_PER_CONVERSATION`
messages. -/
def StoreInv (s : ConversationMemory) : Prop :=
  s.conversations.length ≤ MAX_CONVERSATIONS ∧
  ∀ c ∈ s.conversations, c.messages.length ≤ MAX_MESSAGES_PER_CONVERSATION

/-- C8: chat provider routing is a pure function of the model identifier:
exactly the five allow-listed identifiers route to Groq, and every other
identifier — including `anthropic/claude-sonnet-4` — routes to
OpenRouter. -/
theorem routeProvider_allowList (m : String) :
    (routeProvider m = Provider.groq ↔
      m ∈ ["llama-3.3-70b-versatile", "llama-3.1-8b-instant",
           "llama3-70b-8192", "llama3-8b-8192", "gemma2-9b-it"]) ∧
    routeProvider "llama-3.3-70b-versatile" = Provider.groq ∧
    routeProvider "anthropic/claude-sonnet-4" = Provider.openRouter := by
  refine ⟨?_, by decide, by decide⟩
  by_cases h : m ∈ ["llama-3.3-70b-versatile", "llama-3.1-8b-instant",
      "llama3-70b-8192", "llama3-8b-8192", "gemma2-9b-it"]
  · have hg : isGroqModel m = true := by
      simpa [isGroqModel, groqModels] using h
    simp [routeProvider, hg, h]
  · have hg : isGroqModel m = false := by
      simpa [isGroqModel, groqModels] using h
    simp [routeProvider, hg, h]

/-- C10: `setCurrentConversation` stores any id without checking
existence and `getCurrentConversationId` returns it; `importConversations`
never changes the marker (so it can dangle after an import);
`deleteConversation` clears it exactly when the deleted id is current;
`clearAllConversations` clears it; `createConversation` and `addMessage`
never set it to `none`. -/
theorem currentMarker_spec :
    (∀ (s : ConversationMemory) (id : String),
      getCurrentConversationId (setCurrentConversation s id) = some id) ∧
    (∀ (s : ConversationMemory) (p : ParseResult),
      getCurrentConversationId (importConversations s p).1 =
        getCurrentConversationId s) ∧
    (∀ (s : ConversationMemory) (id : String),
      getCurrentConversationId (deleteConversation s id) =
        if getCurrentConversationId s = some id then none
        else getCurrentConversationId s) ∧
    (∀ (s : ConversationMemory), getCurrentConversationId (clearAllConversations s) = none) ∧
    (∀ (s : ConversationMemory) (model nid : String) (now : Nat),
      getCurrentConversationId (createConversation s model nid now).1 = some nid) ∧
    (∀ (s : ConversationMemory) (cid : String) (inp : MessageInput)
        (mid : String) (now : Nat),
      getCurrentConversationId (addMessage s cid inp mid now) =
        getCurrentConversationId s) ∧
    (getCurrentConversationId
        (importConversations (setCurrentConversation ⟨[], none⟩ "ghost")
          (ParseResult.array [])).1 = some "ghost" ∧
      mapGet (importConversations (setCurrentConversation ⟨[], none⟩ "ghost")
          (ParseResult.array [])).1.conversations "ghost" = none) := by
  refine ⟨?_, ?_, ?_, ?_, ?_, ?_, by decide, by decide⟩
  · intro s id; rfl
  · intro s p
    cases p <;> rfl
  · intro s id; rfl
  · intro s; rfl
  · intro s model nid now; rfl
  · intro s cid inp mid now
    unfold addMessage
    cases mapGet s.conversations cid <;> rfl

lemma importLoop_goods (goods : List Conversation) :
    ∀ acc, importLoop (goods.map JsonElem.good) acc = (goods.foldl mapSet acc, true) := by
  induction goods with
  | nil => intro acc; rfl
  | cons c rest ih =>
      intro acc
      simpa [importLoop] using ih (mapSet acc c)

lemma importLoop_stops_at_bad (pre : List Conversation) (rest : List JsonElem) :
    ∀ acc, importLoop (pre.map JsonElem.good ++ JsonElem.bad :: rest) acc =
      (pre.foldl mapSet acc, false) := by
  induction pre with
  | nil => intro acc; rfl
  | cons c pre ih =>
      intro acc
      simpa [importLoop] using ih (mapSet acc c)

/-- C6 (amended): `importConversations` leaves the store untouched and
returns `false` when `JSON.parse` fails or yields a non-array; when it
returns `true` it has replaced the whole conversation set by the parsed
array (inserted left to right); but on an array containing a malformed
element it returns `false` after having cleared the store and inserted
only the elements preceding the malformed one. -/
theorem importConversations_amended (s : ConversationMemory) :
    importConversations s ParseResult.failure = (s, false) ∧
    importConversations s ParseResult.nonArray = (s, false) ∧
    (∀ goods : List Conversation,
      importConversations s (ParseResult.array (goods.map JsonElem.good)) =
        ({ s with conversations := goods.foldl mapSet [] }, true)) ∧
    (∀ (pre : List Conversation) (rest : List JsonElem),
      importConversations s
          (ParseResult.array (pre.map JsonElem.good ++ JsonElem.bad :: rest)) =
        ({ s with conversations := pre.foldl mapSet [] }, false)) := by
  refine ⟨rfl, rfl, ?_, ?_⟩
  · intro goods
    simp [importConversations, importLoop_goods]
  · intro pre rest
    simp [importConversations, importLoop_stops_at_bad]

/-- C6 counterexample: importing the malformed snapshot `"[0]"` (an array
whose single element makes the per-element conversion throw) returns
`false` yet empties a previously non-empty store, so a failed import does
not always leave the store untouched. -/
theorem importConversations_false_but_modified :
    (importConversations ⟨[⟨"a", "t", [], "m", 0, 0⟩], some "a"⟩
        (ParseResult.array [JsonElem.bad])).2 = false ∧
    (importConversations ⟨[⟨"a", "t", [], "m", 0, 0⟩], some "a"⟩
        (ParseResult.array [JsonElem.bad])).1.conversations = [] ∧
    ([] : List Conversation) ≠ [⟨"a", "t", [], "m", 0, 0⟩] := by
  refine ⟨rfl, rfl, by decide⟩

lemma mapSet_of_fresh (l : List Conversation) (c : Conversation)
    (h : c.id ∉ l.map (fun x => x.id)) : mapSet l c = l ++ [c] := by
  have hany : l.any (fun x => x.id = c.id) = false := by
    simp only [List.any_eq_false, decide_eq_false_iff_not]
    intro x hx h'
    exact h ((of_decide_eq_true h') ▸ List.mem_map_of_mem _ hx)
  simp [mapSet, hany]

lemma foldl_mapSet_of_nodup (l : List Conversation) :
    ∀ acc : List Conversation, (((acc ++ l).map (fun c => c.id)).Nodup) →
      l.foldl mapSet acc = acc ++ l := by
  induction l with
  | nil => intro acc _; simp
  | cons c rest ih =>
      intro acc h
      have hfresh : c.id ∉ acc.map (fun x => x.id) := by
        rw [List.map_append, List.nodup_append] at h
        exact fun hmem => h.2.2 hmem (by simp)
      have hstep : mapSet acc c = acc ++ [c] := mapSet_of_fresh acc c hfresh
      have h' : (((acc ++ [c]) ++ rest).map (fun x => x.id)).Nodup := by
        simpa [List.append_assoc] using h
      calc (c :: rest).foldl mapSet acc
          = rest.foldl mapSet (mapSet acc c) := rfl
        _ = rest.foldl mapSet (acc ++ [c]) := by rw [hstep]
        _ = (acc ++ [c]) ++ rest := ih (acc ++ [c]) h'
        _ = acc ++ c :: rest := by simp

/-- C5: importing an exported snapshot into any store succeeds and
reproduces exactly the exported conversation list (same ids, same message
order and contents); the current-conversation marker of the target store
is untouched because it is not part of the payload. -/
theorem export_import_roundtrip (s s2 : ConversationMemory)
    (h : (s.conversations.map (fun c => c.id)).Nodup) :
    importConversations s2
        (ParseResult.array ((exportConversations s).map JsonElem.good)) =
      ({ s2 with conversations := s.conversations }, true) := by
  have hfold : s.conversations.foldl mapSet [] = s.conversations := by
    simpa using foldl_mapSet_of_nodup s.conversations [] (by simpa using h)
  simp [importConversations, exportConversations, importLoop_goods, hfold]

/-- Witness for C5 at a concrete two-conversation store. -/
theorem export_import_roundtrip_witness :
    ((([⟨"a", "t", [], "m", 0, 0⟩, ⟨"b", "u", [], "m", 1, 1⟩] :
        List Conversation).map (fun c => c.id)).Nodup) ∧
    importConversations ⟨[⟨"z", "w", [], "m", 2, 2⟩], some "z"⟩
        (ParseResult.array
          ((exportConversations
              ⟨[⟨"a", "t", [], "m", 0, 0⟩, ⟨"b", "u", [], "m", 1, 1⟩], none⟩).map
            JsonElem.good)) =
      (⟨[⟨"a", "t", [], "m", 0, 0⟩, ⟨"b", "u", [], "m", 1, 1⟩], some "z"⟩, true) :=
  ⟨by decide,
   export_import_roundtrip
     ⟨[⟨"a", "t", [], "m", 0, 0⟩, ⟨"b", "u", [], "m", 1, 1⟩], none⟩
     ⟨[⟨"z", "w", [], "m", 2, 2⟩], some "z"⟩ (by decide)⟩

lemma length_takeLast_le (n : Nat) (l : List α) : (takeLast n l).length ≤ n := by
  simp only [takeLast, List.length_drop]
  omega

lemma takeLast_eq_self {n : Nat} {l : List α} (h : l.length ≤ n) :
    takeLast n l = l := by
  simp [takeLast, Nat.sub_eq_zero_of_le h]

lemma takeLast_length (n : Nat) (l : List α) :
    (takeLast n l).length = min n l.length := by
  simp only [takeLast, List.length_drop]
  omega

lemma drop_append_of_le_len :
    ∀ (l1 : List α) (n : Nat), n ≤ l1.length → ∀ l2 : List α,
      (l1 ++ l2).drop n = l1.drop n ++ l2 := by
  intro l1
  induction l1 with
  | nil =>
      intro n hn l2
      simp at hn
      simp [hn]
  | cons a t ih =>
      intro n hn l2
      cases n with
      | zero => simp
      | succ m =>
          simp only [List.cons_append, List.drop_succ_cons]
          exact ih m (by simpa using hn) l2

lemma takeLast_append_absorb (n : Nat) (l y : List α) :
    takeLast n (takeLast n l ++ y) = takeLast n (l ++ y) := by
  unfold takeLast
  have hd : l.length - n ≤ l.length := Nat.sub_le _ _
  have hsplit : (l ++ y).drop (l.length - n) = l.drop (l.length - n) ++ y :=
    drop_append_of_le_len l _ hd y
  have hidx : (l ++ y).length - n =
      (l.length - n) + ((l.drop (l.length - n) ++ y).length - n) := by
    simp only [List.length_append, List.length_drop]
    omega
  rw [hidx, ← List.drop_drop, hsplit]

lemma appendToConversation_messages (c : Conversation) (i : MessageInput)
    (nid : String) (now : Nat) :
    (appendToConversation c i nid now).messages =
      takeLast MAX_MESSAGES_PER_CONVERSATION
        (c.messages ++ [mkConversationMessage i nid now]) := by
  show (if (c.messages ++ [mkConversationMessage i nid now]).length >
          MAX_MESSAGES_PER_CONVERSATION then
        takeLast MAX_MESSAGES_PER_CONVERSATION
          (c.messages ++ [mkConversationMessage i nid now])
      else c.messages ++ [mkConversationMessage i nid now]) =
      takeLast MAX_MESSAGES_PER_CONVERSATION
        (c.messages ++ [mkConversationMessage i nid now])
  split
  · rfl
  · next h => exact (takeLast_eq_self (Nat.le_of_not_lt h)).symm

lemma appendToConversation_messages_ne (c : Conversation) (i : MessageInput)
    (nid : String) (now : Nat) :
    (appendToConversation c i nid now).messages ≠ [] := by
  rw [appendToConversation_messages]
  refine List.length_pos.mp ?_
  rw [takeLast_length]
  simp only [List.length_append, List.length_singleton,
    MAX_MESSAGES_PER_CONVERSATION]
  omega

lemma foldAppend_messages (inputs : List (MessageInput × String × Nat)) :
    ∀ c : Conversation, c.messages.length ≤ MAX_MESSAGES_PER_CONVERSATION →
      (foldAppend c inputs).messages =
        takeLast MAX_MESSAGES_PER_CONVERSATION
          (c.messages ++
            inputs.map (fun t => mkConversationMessage t.1 t.2.1 t.2.2)) := by
  induction inputs with
  | nil =>
      intro c h
      simp [foldAppend, takeLast_eq_self h]
  | cons t rest ih =>
      intro c h
      have hstep := appendToConversation_messages c t.1 t.2.1 t.2.2
      have hlen : (appendToConversation c t.1 t.2.1 t.2.2).messages.length ≤
          MAX_MESSAGES_PER_CONVERSATION := by
        rw [hstep]; exact length_takeLast_le _ _
      calc (foldAppend c (t :: rest)).messages
          = (foldAppend (appendToConversation c t.1 t.2.1 t.2.2) rest).messages :=
            rfl
        _ = takeLast MAX_MESSAGES_PER_CONVERSATION
              ((appendToConversation c t.1 t.2.1 t.2.2).messages ++
                rest.map (fun t => mkConversationMessage t.1 t.2.1 t.2.2)) :=
            ih _ hlen
        _ = takeLast MAX_MESSAGES_PER_CONVERSATION
              (takeLast MAX_MESSAGES_PER_CONVERSATION
                  (c.messages ++ [mkConversationMessage t.1 t.2.1 t.2.2]) ++
                rest.map (fun t => mkConversationMessage t.1 t.2.1 t.2.2)) := by
            rw [hstep]
        _ = takeLast MAX_MESSAGES_PER_CONVERSATION
              ((c.messages ++ [mkConversationMessage t.1 t.2.1 t.2.2]) ++
                rest.map (fun t => mkConversationMessage t.1 t.2.1 t.2.2)) :=
            takeLast_append_absorb _ _ _
        _ = takeLast MAX_MESSAGES_PER_CONVERSATION
              (c.messages ++
                (t :: rest).map (fun t => mkConversationMessage t.1 t.2.1 t.2.2)) := by
            simp

/-- C2: starting from a conversation within the message cap, any sequence
of sequential `addMessage` calls keeps the stored message count at most
`MAX_MESSAGES_PER_CONVERSATION = 100`, and the retained messages are
exactly the most recent 100 of the original messages followed by the
appended ones, in append order (oldest dropped, no reordering, no
gaps). -/
theorem addMessage_cap (c : Conversation)
    (inputs : List (MessageInput × String × Nat))
    (h : c.messages.length ≤ MAX_MESSAGES_PER_CONVERSATION) :
    (foldAppend c inputs).messages.length ≤ MAX_MESSAGES_PER_CONVERSATION ∧
    (foldAppend c inputs).messages =
      takeLast MAX_MESSAGES_PER_CONVERSATION
        (c.messages ++
          inputs.map (fun t => mkConversationMessage t.1 t.2.1 t.2.2)) := by
  have heq := foldAppend_messages inputs c h
  exact ⟨heq ▸ length_takeLast_le _ _, heq⟩

/-- Witness for C2: a fresh conversation receiving two messages. -/
theorem addMessage_cap_witness :
    ((⟨"c1", "New Conversation", [], "m", 0, 0⟩ : Conversation).messages.length ≤
        MAX_MESSAGES_PER_CONVERSATION) ∧
    ((foldAppend ⟨"c1", "New Conversation", [], "m", 0, 0⟩
        [(⟨"hello", Role.user, none, none⟩, "m1", 1),
         (⟨"world", Role.assistant, none, none⟩, "m2", 2)]).messages.length ≤
          MAX_MESSAGES_PER_CONVERSATION ∧
      (foldAppend ⟨"c1", "New Conversation", [], "m", 0, 0⟩
          [(⟨"hello", Role.user, none, none⟩, "m1", 1),
           (⟨"world", Role.assistant, none, none⟩, "m2", 2)]).messages =
        takeLast MAX_MESSAGES_PER_CONVERSATION
          ((⟨"c1", "New Conversation", [], "m", 0, 0⟩ : Conversation).messages ++
            ([(⟨"hello", Role.user, none, none⟩, "m1", 1),
              (⟨"world", Role.assistant, none, none⟩, "m2", 2)] :
                List (MessageInput × String × Nat)).map
              (fun t => mkConversationMessage t.1 t.2.1 t.2.2))) :=
  ⟨by decide,
   addMessage_cap ⟨"c1", "New Conversation", [], "m", 0, 0⟩
     [(⟨"hello", Role.user, none, none⟩, "m1", 1),
      (⟨"world", Role.assistant, none, none⟩, "m2", 2)] (by decide)⟩

lemma appendToConversation_title_of_ne (c : Conversation) (i : MessageInput)
    (nid : String) (now : Nat) (h : c.messages ≠ []) :
    (appendToConversation c i nid now).title = c.title := by
  have hlen : ¬ ((c.messages ++ [mkConversationMessage i nid now]).length = 1 ∧
      i.role = Role.user) := by
    rintro ⟨h1, -⟩
    rw [List.length_append, List.length_singleton] at h1
    exact h (List.length_eq_zero.mp (by omega))
  show (if (c.messages ++ [mkConversationMessage i nid now]).length = 1 ∧
        i.role = Role.user then mkTitle i.content
      else c.title) = c.title
  exact if_neg hlen

lemma foldAppend_title_of_ne (inputs : List (MessageInput × String × Nat)) :
    ∀ c : Conversation, c.messages ≠ [] →
      (foldAppend c inputs).title = c.title := by
  induction inputs with
  | nil => intro c _; rfl
  | cons t rest ih =>
      intro c h
      calc (foldAppend c (t :: rest)).title
          = (foldAppend (appendToConversation c t.1 t.2.1 t.2.2) rest).title :=
            rfl
        _ = (appendToConversation c t.1 t.2.1 t.2.2).title :=
            ih _ (appendToConversation_messages_ne c t.1 t.2.1 t.2.2)
        _ = c.title := appendToConversation_title_of_ne c t.1 t.2.1 t.2.2 h

/-- C7: a conversation is created with the placeholder title
`"New Conversation"`; appending to an empty conversation sets the title
exactly when the first message's role is user (to the first 50 characters
of its content, plus `"..."` when the content is longer than 50
characters), and no later append ever changes the title. -/
theorem title_spec (c : Conversation) (hc : c.messages = [])
    (inputs : List (MessageInput × String × Nat)) :
    (∀ model nid now, (newConversation model nid now).title = "New Conversation") ∧
    (foldAppend c inputs).title =
      (match inputs with
       | [] => c.title
       | (inp, _, _) :: _ =>
           if inp.role = Role.user then
             inp.content.take 50 ++
               (if inp.content.length > 50 then "..." else "")
           else c.title) := by
  refine ⟨fun _ _ _ => rfl, ?_⟩
  cases inputs with
  | nil => rfl
  | cons t rest =>
      obtain ⟨inp, nid, now⟩ := t
      have h1 : (appendToConversation c inp nid now).title =
          if inp.role = Role.user then mkTitle inp.content else c.title := by
        show (if (c.messages ++ [mkConversationMessage inp nid now]).length = 1 ∧
              inp.role = Role.user then mkTitle inp.content
            else c.title) =
            if inp.role = Role.user then mkTitle inp.content else c.title
        rw [hc]
        simp
      have h2 : (foldAppend c ((inp, nid, now) :: rest)).title =
          (appendToConversation c inp nid now).title :=
        foldAppend_title_of_ne rest _
          (appendToConversation_messages_ne c inp nid now)
      rw [h2, h1]
      by_cases hr : inp.role = Role.user <;> simp [hr, mkTitle]

/-- Witness for C7: a fresh conversation receiving one user message. -/
theorem title_spec_witness :
    ((⟨"c1", "New Conversation", [], "m", 0, 0⟩ : Conversation).messages = []) ∧
    ((∀ model nid now,
        (newConversation model nid now).title = "New Conversation") ∧
      (foldAppend ⟨"c1", "New Conversation", [], "m", 0, 0⟩
          [(⟨"hello", Role.user, none, none⟩, "m1", 1)]).title =
        (if Role.user = Role.user then
          ("hello" : String).take 50 ++
            (if ("hello" : String).length > 50 then "..." else "")
        else (⟨"c1", "New Conversation", [], "m", 0, 0⟩ : Conversation).title)) :=
  ⟨rfl,
   title_spec ⟨"c1", "New Conversation", [], "m", 0, 0⟩ rfl
     [(⟨"hello", Role.user, none, none⟩, "m1", 1)]⟩

lemma foldOldest_mem :
    ∀ (rest : List Conversation) (a : Conversation),
      rest.foldl (fun best x => if x.updatedAt < best.updatedAt then x else best)
        a ∈ a :: rest := by
  intro rest
  induction rest with
  | nil => intro a; simp
  | cons x r ih =>
      intro a
      have h := ih (if x.updatedAt < a.updatedAt then x else a)
      simp only [List.foldl_cons]
      rcases List.mem_cons.mp h with h1 | h1
      · rw [h1]
        by_cases hx : x.updatedAt < a.updatedAt
        · simp [hx]
        · simp [hx]
      · exact List.mem_cons_of_mem a (List.mem_cons_of_mem x h1)

lemma findOldest_mem (l : List Conversation) (h : l ≠ []) :
    ∃ o, findOldest l = some o ∧ o ∈ l := by
  cases l with
  | nil => exact absurd rfl h
  | cons c rest =>
      exact ⟨_, rfl, foldOldest_mem rest c⟩

lemma filter_length_lt {α : Type} (p : α → Bool) :
    ∀ (l : List α) (x : α), x ∈ l → p x = false →
      (l.filter p).length < l.length := by
  intro l
  induction l with
  | nil => intro x hx; cases hx
  | cons a t ih =>
      intro x hx hp
      rcases List.mem_cons.mp hx with h1 | h1
      · subst h1
        simp only [List.filter_cons, hp, cond_false, List.length_cons]
        exact Nat.lt_succ_of_le (List.length_filter_le p t)
      · have hlt := ih x h1 hp
        by_cases ha : p a
        · simp only [List.filter_cons, ha, if_true, List.length_cons]
          omega
        · simp [List.filter_cons, ha, List.length_cons]
          omega

lemma mapSet_messages_bound (l : List Conversation) (new : Conversation)
    (hmsg : ∀ c ∈ l, c.messages.length ≤ MAX_MESSAGES_PER_CONVERSATION)
    (hnew : new.messages.length ≤ MAX_MESSAGES_PER_CONVERSATION) :
    ∀ c ∈ mapSet l new, c.messages.length ≤ MAX_MESSAGES_PER_CONVERSATION := by
  intro c hc
  unfold mapSet at hc
  by_cases hany : l.any (fun x => x.id = new.id)
  · rw [if_pos hany] at hc
    rcases List.mem_map.mp hc with ⟨x, hx, hfx⟩
    by_cases hid : x.id = new.id
    · rw [if_pos hid] at hfx
      exact hfx ▸ hnew
    · rw [if_neg hid] at hfx
      exact hfx ▸ hmsg x hx
  · rw [if_neg hany] at hc
    rcases List.mem_append.mp hc with h1 | h1
    · exact hmsg c h1
    · have : c = new := by simpa using h1
      exact this ▸ hnew

lemma mapSet_length_le (l : List Conversation) (new : Conversation) :
    (mapSet l new).length ≤ l.length + 1 := by
  unfold mapSet
  split
  · simp
  · simp

lemma createConversation_inv (s : ConversationMemory) (h : StoreInv s)
    (model nid : String) (now : Nat) :
    StoreInv (createConversation s model nid now).1 := by
  obtain ⟨hlen, hmsg⟩ := h
  have hnewmsg : (newConversation model nid now).messages.length ≤
      MAX_MESSAGES_PER_CONVERSATION := by
    simp [newConversation, MAX_MESSAGES_PER_CONVERSATION]
  have hsub := mapSet_messages_bound s.conversations (newConversation model nid now)
    hmsg hnewmsg
  have hlen2 := mapSet_length_le s.conversations (newConversation model nid now)
  have hc2 : (createConversation s model nid now).1.conversations =
      (if (mapSet s.conversations (newConversation model nid now)).length >
          MAX_CONVERSATIONS then
        match findOldest (mapSet s.conversations (newConversation model nid now)) with
        | some oldest =>
            mapDelete (mapSet s.conversations (newConversation model nid now))
              oldest.id
        | none => mapSet s.conversations (newConversation model nid now)
      else mapSet s.conversations (newConversation model nid now)) := rfl
  constructor
  · rw [hc2]
    by_cases hgt : (mapSet s.conversations (newConversation model nid now)).length >
        MAX_CONVERSATIONS
    · rw [if_pos hgt]
      have hne : mapSet s.conversations (newConversation model nid now) ≠ [] := by
        refine List.length_pos.mp ?_
        have : 0 < MAX_CONVERSATIONS := by
          simp [MAX_CONVERSATIONS]
        omega
      obtain ⟨o, ho, homem⟩ :=
        findOldest_mem (mapSet s.conversations (newConversation model nid now)) hne
      rw [ho]
      have hdel : (mapDelete (mapSet s.conversations (newConversation model nid now))
          o.id).length <
          (mapSet s.conversations (newConversation model nid now)).length := by
        refine filter_length_lt _ _ o homem ?_
        simp
      show (mapDelete (mapSet s.conversations (newConversation model nid now))
          o.id).length ≤ MAX_CONVERSATIONS
      omega
    · rw [if_neg hgt]
      omega
  · rw [hc2]
    by_cases hgt : (mapSet s.conversations (newConversation model nid now)).length >
        MAX_CONVERSATIONS
    · rw [if_pos hgt]
      have hne : mapSet s.conversations (newConversation model nid now) ≠ [] := by
        refine List.length_pos.mp ?_
        have : 0 < MAX_CONVERSATIONS := by
          simp [MAX_CONVERSATIONS]
        omega
      obtain ⟨o, ho, homem⟩ :=
        findOldest_mem (mapSet s.conversations (newConversation model nid now)) hne
      rw [ho]
      intro c hc
      exact hsub c (List.mem_of_mem_filter hc)
    · rw [if_neg hgt]
      exact hsub

lemma addMessage_inv (s : ConversationMemory) (h : StoreInv s) (cid : String)
    (inp : MessageInput) (mid : String) (mnow : Nat) :
    StoreInv (addMessage s cid inp mid mnow) := by
  obtain ⟨hlen, hmsg⟩ := h
  unfold addMessage
  cases hget : mapGet s.conversations cid with
  | none => exact ⟨hlen, hmsg⟩
  | some c0 =>
      constructor
      · simpa using hlen
      · intro c hc
        rcases List.mem_map.mp hc with ⟨x, hx, hfx⟩
        by_cases hid : x.id = cid
        · rw [if_pos hid] at hfx
          rw [← hfx, appendToConversation_messages]
          exact length_takeLast_le _ _
        · rw [if_neg hid] at hfx
          exact hfx ▸ hmsg x hx

lemma deleteConversation_inv (s : ConversationMemory) (h : StoreInv s)
    (did : String) : StoreInv (deleteConversation s did) := by
  obtain ⟨hlen, hmsg⟩ := h
  constructor
  · exact le_trans (List.length_filter_le _ _) hlen
  · intro c hc
    exact hmsg c (List.mem_of_mem_filter hc)

/-- C3 (amended): the conversation-count and message-count caps are
preserved by `createConversation`, `addMessage`, `deleteConversation` and
`clearAllConversations`; `importConversations` is excluded because it
installs the parsed array unchecked. -/
theorem caps_preserved (s : ConversationMemory) (h : StoreInv s)
    (model nid : String) (now : Nat) (cid : String) (inp : MessageInput)
    (mid : String) (mnow : Nat) (did : String) :
    StoreInv (createConversation s model nid now).1 ∧
    StoreInv (addMessage s cid inp mid mnow) ∧
    StoreInv (deleteConversation s did) ∧
    StoreInv (clearAllConversations s) :=
  ⟨createConversation_inv s h model nid now,
   addMessage_inv s h cid inp mid mnow,
   deleteConversation_inv s h did,
   ⟨by simp [clearAllConversations, MAX_CONVERSATIONS], by simp [clearAllConversations]⟩⟩

/-- Witness for C3 (amended) at the empty store. -/
theorem caps_preserved_witness :
    StoreInv ⟨[], none⟩ ∧
    (StoreInv (createConversation ⟨[], none⟩ "m" "c1" 0).1 ∧
      StoreInv (addMessage ⟨[], none⟩ "c1" ⟨"hi", Role.user, none, none⟩ "m1" 1) ∧
      StoreInv (deleteConversation ⟨[], none⟩ "c1") ∧
      StoreInv (clearAllConversations ⟨[], none⟩)) :=
  ⟨⟨by decide, by decide⟩,
   caps_preserved ⟨[], none⟩ ⟨by decide, by decide⟩ "m" "c1" 0 "c1"
     ⟨"hi", Role.user, none, none⟩ "m1" 1 "c1"⟩

/-- C3 counterexample: importing a snapshot of 51 well-formed
conversations (one of them holding 101 messages) yields a reachable store
with 51 > 50 conversations, one of which holds 101 > 100 messages, so the
caps are not preserved by every public operation. -/
theorem import_exceeds_caps :
    (importConversations ⟨[], none⟩
        (ParseResult.array ((List.range 51).map (fun i =>
          JsonElem.good
            ⟨toString i, "t",
              (List.range (if i = 0 then 101 else 0)).map (fun j =>
                ⟨toString j, "x", Role.user, 0, none, none⟩),
              "m", 0, 0⟩)))).1.conversations.length = 51 ∧
    ¬ StoreInv (importConversations ⟨[], none⟩
        (ParseResult.array ((List.range 51).map (fun i =>
          JsonElem.good
            ⟨toString i, "t",
              (List.range (if i = 0 then 101 else 0)).map (fun j =>
                ⟨toString j, "x", Role.user, 0, none, none⟩),
              "m", 0, 0⟩)))).1 := by
  constructor
  · decide
  · intro hinv
    have h51 : (importConversations ⟨[], none⟩
        (ParseResult.array ((List.range 51).map (fun i =>
          JsonElem.good
            ⟨toString i, "t",
              (List.range (if i = 0 then 101 else 0)).map (fun j =>
                ⟨toString j, "x", Role.user, 0, none, none⟩),
              "m", 0, 0⟩)))).1.conversations.length = 51 := by decide
    have := hinv.1
    rw [h51] at this
    simp [MAX_CONVERSATIONS] at this

set_option maxRecDepth 16000

/-- C4 counterexample: on a store already holding exactly 50
conversations whose `updatedAt` stamps (100) lie in the future of the
creation time (0), `createConversation` evicts the newly created
conversation itself — the globally oldest by `updatedAt` — leaving the 50
pre-existing conversations untouched, contrary to the claim that the new
conversation and the 49 most-recently-updated pre-existing ones remain. -/
theorem createConversation_evicts_new :
    ((⟨(List.range 50).map (fun i =>
        (⟨toString i, "t", [], "m", 0, 100⟩ : Conversation)), none⟩ :
          ConversationMemory).conversations.length = 50) ∧
    (createConversation
        ⟨(List.range 50).map (fun i =>
          (⟨toString i, "t", [], "m", 0, 100⟩ : Conversation)), none⟩
        "m" "newconv" 0).1.conversations =
      (List.range 50).map (fun i =>
        (⟨toString i, "t", [], "m", 0, 100⟩ : Conversation)) ∧
    "newconv" ∉ ((createConversation
        ⟨(List.range 50).map (fun i =>
          (⟨toString i, "t", [], "m", 0, 100⟩ : Conversation)), none⟩
        "m" "newconv" 0).1.conversations.map (fun c => c.id)) := by
  refine ⟨by decide, by decide, by decide⟩

lemma foldPick_keep (rest : List Conversation) (a : Conversation)
    (h : ∀ x ∈ rest, ¬ x.updatedAt < a.updatedAt) :
    rest.foldl (fun best x => if x.updatedAt < best.updatedAt then x else best)
      a = a := by
  induction rest with
  | nil => rfl
  | cons x r ih =>
      simp only [List.foldl_cons]
      rw [if_neg (h x (List.mem_cons_self x r))]
      exact ih (fun y hy => h y (List.mem_cons_of_mem x hy))

lemma foldPick_reach (om : Conversation) :
    ∀ (r1 : List Conversation) (a : Conversation) (r2 : List Conversation),
      om.updatedAt < a.updatedAt →
      (∀ x ∈ r1, om.updatedAt < x.updatedAt) →
      (∀ x ∈ r2, ¬ x.updatedAt < om.updatedAt) →
      (r1 ++ om :: r2).foldl
        (fun best x => if x.updatedAt < best.updatedAt then x else best) a =
        om := by
  intro r1
  induction r1 with
  | nil =>
      intro a r2 ha _ h2
      simp only [List.nil_append, List.foldl_cons]
      rw [if_pos ha]
      exact foldPick_keep r2 om h2
  | cons x r ih =>
      intro a r2 ha h1 h2
      simp only [List.cons_append, List.foldl_cons]
      have hx : om.updatedAt < x.updatedAt := h1 x (List.mem_cons_self x r)
      by_cases hcmp : x.updatedAt < a.updatedAt
      · rw [if_pos hcmp]
        exact ih x r2 hx (fun y hy => h1 y (List.mem_cons_of_mem x hy)) h2
      · rw [if_neg hcmp]
        exact ih a r2 ha (fun y hy => h1 y (List.mem_cons_of_mem x hy)) h2

lemma findOldest_of_unique_min (l1 l2 : List Conversation) (om new : Conversation)
    (h1 : ∀ x ∈ l1, om.updatedAt < x.updatedAt)
    (h2 : ∀ x ∈ l2, om.updatedAt < x.updatedAt)
    (hnew : om.updatedAt ≤ new.updatedAt) :
    findOldest ((l1 ++ om :: l2) ++ [new]) = some om := by
  have hkeep : ∀ x ∈ l2 ++ [new], ¬ x.updatedAt < om.updatedAt := by
    intro x hx
    rcases List.mem_append.mp hx with h | h
    · exact Nat.lt_asymm (h2 x h)
    · have hx2 : x = new := by simpa using h
      subst hx2
      omega
  cases l1 with
  | nil =>
      simp only [List.nil_append, List.cons_append]
      unfold findOldest
      exact congrArg some (foldPick_keep (l2 ++ [new]) om hkeep)
  | cons c r =>
      have hre : ((c :: r ++ om :: l2) ++ [new]) =
          c :: (r ++ om :: (l2 ++ [new])) := by
        simp
      rw [hre]
      unfold findOldest
      exact congrArg some
        (foldPick_reach om r c (l2 ++ [new])
          (h1 c (List.mem_cons_self c r))
          (fun y hy => h1 y (List.mem_cons_of_mem c hy)) hkeep)

/-- C4 (amended): when every pre-existing conversation's `updatedAt` is
at most the creation time, the oldest pre-existing conversation is unique,
and the generated id is fresh, `createConversation` on a store of exactly
50 conversations evicts exactly that oldest conversation: the result is
the 49 remaining pre-existing conversations followed by the new one, 50
in total. -/
theorem createConversation_evicts_oldest (s : ConversationMemory)
    (model nid : String) (now : Nat) (om : Conversation)
    (hlen : s.conversations.length = MAX_CONVERSATIONS)
    (hnodup : (s.conversations.map (fun c => c.id)).Nodup)
    (hfresh : nid ∉ s.conversations.map (fun c => c.id))
    (hom : om ∈ s.conversations)
    (hmin : ∀ c ∈ s.conversations, c.id ≠ om.id → om.updatedAt < c.updatedAt)
    (hle : om.updatedAt ≤ now) :
    (createConversation s model nid now).1.conversations =
      s.conversations.filter (fun c => c.id ≠ om.id) ++
        [newConversation model nid now] ∧
    (createConversation s model nid now).1.conversations.length =
      MAX_CONVERSATIONS := by
  obtain ⟨l1, l2, hdecomp⟩ := List.append_of_mem hom
  have hnodup2 : ((l1 ++ om :: l2).map (fun c => c.id)).Nodup := by
    rw [← hdecomp]; exact hnodup
  rw [List.map_append, List.nodup_append] at hnodup2
  have h1ne : ∀ x ∈ l1, x.id ≠ om.id := by
    intro x hx he
    exact hnodup2.2.2 (List.mem_map_of_mem _ hx) (by simp [he])
  have h2ne : ∀ x ∈ l2, x.id ≠ om.id := by
    intro x hx he
    have hcons : ((om :: l2).map (fun c => c.id)).Nodup := hnodup2.2.1
    rw [List.map_cons, List.nodup_cons] at hcons
    exact hcons.1 (he ▸ List.mem_map_of_mem _ hx)
  have h1lt : ∀ x ∈ l1, om.updatedAt < x.updatedAt := fun x hx =>
    hmin x (by rw [hdecomp]; exact List.mem_append_left _ hx) (h1ne x hx)
  have h2lt : ∀ x ∈ l2, om.updatedAt < x.updatedAt := fun x hx =>
    hmin x (by
      rw [hdecomp]
      exact List.mem_append_right _ (List.mem_cons_of_mem om hx)) (h2ne x hx)
  have hnidne : nid ≠ om.id := fun he =>
    hfresh (he ▸ List.mem_map_of_mem _ hom)
  have hmapset : mapSet s.conversations (newConversation model nid now) =
      s.conversations ++ [newConversation model nid now] :=
    mapSet_of_fresh _ _ (by simpa [newConversation] using hfresh)
  have hgt : (s.conversations ++ [newConversation model nid now]).length >
      MAX_CONVERSATIONS := by
    simp [List.length_append, hlen]
  have hfind : findOldest (s.conversations ++ [newConversation model nid now]) =
      some om := by
    rw [hdecomp]
    refine findOldest_of_unique_min l1 l2 om _ h1lt h2lt ?_
    simpa [newConversation] using hle
  have hdel : mapDelete (s.conversations ++ [newConversation model nid now])
      om.id =
      s.conversations.filter (fun c => c.id ≠ om.id) ++
        [newConversation model nid now] := by
    unfold mapDelete
    rw [List.filter_append]
    congr 1
    simp [newConversation, hnidne]
  have hmain : (createConversation s model nid now).1.conversations =
      s.conversations.filter (fun c => c.id ≠ om.id) ++
        [newConversation model nid now] := by
    have hc2 : (createConversation s model nid now).1.conversations =
        (if (mapSet s.conversations (newConversation model nid now)).length >
            MAX_CONVERSATIONS then
          match findOldest (mapSet s.conversations (newConversation model nid now)) with
          | some oldest =>
              mapDelete (mapSet s.conversations (newConversation model nid now))
                oldest.id
          | none => mapSet s.conversations (newConversation model nid now)
        else mapSet s.conversations (newConversation model nid now)) := rfl
    rw [hc2, hmapset, if_pos hgt, hfind]
    exact hdel
  refine ⟨hmain, ?_⟩
  rw [hmain]
  have hfl1 : l1.filter (fun c => c.id ≠ om.id) = l1 :=
    List.filter_eq_self.mpr (fun a ha => by simpa using h1ne a ha)
  have hfl2 : l2.filter (fun c => c.id ≠ om.id) = l2 :=
    List.filter_eq_self.mpr (fun a ha => by simpa using h2ne a ha)
  rw [hdecomp, List.filter_append]
  have hfom : (om :: l2).filter (fun c => c.id ≠ om.id) =
      l2.filter (fun c => c.id ≠ om.id) := by
    rw [List.filter_cons]
    simp
  rw [hfom, hfl1, hfl2]
  have hlens := congrArg List.length hdecomp
  simp only [List.length_append, List.length_cons, hlen] at hlens
  simp only [List.length_append, List.length_singleton]
  omega

/-- Witness for C4 (amended): 50 conversations with distinct ids and
strictly increasing `updatedAt`, created-at time later than all of them. -/
theorem createConversation_evicts_oldest_witness :
    ((⟨(List.range 50).map (fun i =>
        (⟨toString i, "t", [], "m", 0, i + 1⟩ : Conversation)), none⟩ :
          ConversationMemory).conversations.length = MAX_CONVERSATIONS) ∧
    (((⟨(List.range 50).map (fun i =>
        (⟨toString i, "t", [], "m", 0, i + 1⟩ : Conversation)), none⟩ :
          ConversationMemory).conversations.map (fun c => c.id)).Nodup) ∧
    ("w" ∉ (⟨(List.range 50).map (fun i =>
        (⟨toString i, "t", [], "m", 0, i + 1⟩ : Conversation)), none⟩ :
          ConversationMemory).conversations.map (fun c => c.id)) ∧
    ((⟨"0", "t", [], "m", 0, 1⟩ : Conversation) ∈
      (⟨(List.range 50).map (fun i =>
        (⟨toString i, "t", [], "m", 0, i + 1⟩ : Conversation)), none⟩ :
          ConversationMemory).conversations) ∧
    (∀ c ∈ (⟨(List.range 50).map (fun i =>
        (⟨toString i, "t", [], "m", 0, i + 1⟩ : Conversation)), none⟩ :
          ConversationMemory).conversations,
      c.id ≠ (⟨"0", "t", [], "m", 0, 1⟩ : Conversation).id →
        (⟨"0", "t", [], "m", 0, 1⟩ : Conversation).updatedAt < c.updatedAt) ∧
    ((⟨"0", "t", [], "m", 0, 1⟩ : Conversation).updatedAt ≤ 100) ∧
    ((createConversation
        ⟨(List.range 50).map (fun i =>
          (⟨toString i, "t", [], "m", 0, i + 1⟩ : Conversation)), none⟩
        "m" "w" 100).1.conversations =
      (⟨(List.range 50).map (fun i =>
        (⟨toString i, "t", [], "m", 0, i + 1⟩ : Conversation)), none⟩ :
          ConversationMemory).conversations.filter
        (fun c => c.id ≠ (⟨"0", "t", [], "m", 0, 1⟩ : Conversation).id) ++
        [newConversation "m" "w" 100] ∧
      (createConversation
        ⟨(List.range 50).map (fun i =>
          (⟨toString i, "t", [], "m", 0, i + 1⟩ : Conversation)), none⟩
        "m" "w" 100).1.conversations.length = MAX_CONVERSATIONS) :=
  ⟨by decide, by decide, by decide, by decide, by decide, by decide,
   createConversation_evicts_oldest
     ⟨(List.range 50).map (fun i =>
       (⟨toString i, "t", [], "m", 0, i + 1⟩ : Conversation)), none⟩
     "m" "w" 100 ⟨"0", "t", [], "m", 0, 1⟩
     (by decide) (by decide) (by decide) (by decide) (by decide) (by decide)⟩

lemma sumTokens_nil : sumTokens [] = 0 := rfl

lemma sumTokens_cons (m : ConversationMessage) (l : List ConversationMessage) :
    sumTokens (m :: l) = estimatedTokens m + sumTokens l := by
  simp [sumTokens]

lemma sumTokens_reverse (l : List ConversationMessage) :
    sumTokens l.reverse = sumTokens l := by
  simp only [sumTokens, List.map_reverse, List.sum_reverse]

lemma getLast_append_ne (pre r : List α) (h : r ≠ []) :
    (pre ++ r).getLast? = r.getLast? := by
  rw [← List.head?_reverse, ← List.head?_reverse, List.reverse_append]
  obtain ⟨x, xs, hx⟩ :
      ∃ x xs, r.reverse = x :: xs :=
    List.exists_cons_of_ne_nil (fun hr => h (List.reverse_eq_nil_iff.mp hr))
  rw [hx]
  rfl

lemma ctxAux_spec (b : Int) :
    ∀ (l : List ConversationMessage) (tot : Int) (acc : List ConversationMessage),
      ∃ t : List ConversationMessage,
        (∃ l2, l = t ++ l2) ∧
        ctxAux b l tot acc = t.reverse ++ acc ∧
        (t = l ∨ ∃ m l2, l = t ++ m :: l2 ∧
          tot + (sumTokens t : Int) + (estimatedTokens m : Int) > b) ∧
        (acc ≠ [] → t ≠ [] → tot + (sumTokens t : Int) ≤ b) ∧
        (acc = [] → 2 ≤ t.length → tot + (sumTokens t : Int) ≤ b) ∧
        (acc = [] → l ≠ [] → t ≠ []) := by
  intro l
  induction l with
  | nil =>
      intro tot acc
      refine ⟨[], ⟨[], rfl⟩, rfl, Or.inl rfl, ?_, ?_, ?_⟩
      · intro _ ht
        exact absurd rfl ht
      · intro _ h2
        simp at h2
      · intro _ hl
        exact absurd rfl hl
  | cons m rest ih =>
      intro tot acc
      by_cases hbr : tot + (estimatedTokens m : Int) > b ∧ acc ≠ []
      · refine ⟨[], ⟨m :: rest, rfl⟩, ?_, ?_, ?_, ?_, ?_⟩
        · show ctxAux b (m :: rest) tot acc = [].reverse ++ acc
          unfold ctxAux
          rw [if_pos hbr]
          rfl
        · right
          refine ⟨m, rest, rfl, ?_⟩
          rw [sumTokens_nil]
          have := hbr.1
          omega
        · intro _ ht
          exact absurd rfl ht
        · intro hacc
          exact absurd hacc hbr.2
        · intro hacc
          exact absurd hacc hbr.2
      · obtain ⟨t', hpre, heq, hstop, h4, h5, h6⟩ :=
          ih (tot + (estimatedTokens m : Int)) (m :: acc)
        refine ⟨m :: t', ?_, ?_, ?_, ?_, ?_, ?_⟩
        · obtain ⟨l2, hl2⟩ := hpre
          exact ⟨l2, by rw [List.cons_append, ← hl2]⟩
        · show ctxAux b (m :: rest) tot acc = (m :: t').reverse ++ acc
          unfold ctxAux
          rw [if_neg hbr, heq]
          simp
        · rcases hstop with h | ⟨m2, l2, hl, hgt⟩
          · exact Or.inl (by rw [h])
          · right
            refine ⟨m2, l2, by rw [List.cons_append, ← hl], ?_⟩
            rw [sumTokens_cons]
            push_cast
            omega
        · intro hacc ht
          have hle : tot + (estimatedTokens m : Int) ≤ b := by
            rcases not_and_or.mp hbr with h | h
            · omega
            · exact absurd hacc h
          rw [sumTokens_cons]
          push_cast
          by_cases ht' : t' = []
          · subst ht'
            rw [sumTokens_nil]
            omega
          · have h4' := h4 (by simp) ht'
            omega
        · intro _ h2
          have ht' : t' ≠ [] := by
            intro he
            rw [he] at h2
            simp at h2
          have h4' := h4 (by simp) ht'
          rw [sumTokens_cons]
          push_cast
          omega
        · intro _ _
          simp

/-- C1: on a conversation present in the store with a non-empty message
list, `getContextMessages` (for any budget, including non-positive ones)
returns a non-empty contiguous suffix of the messages in chronological
order ending with the most recent message; it is either the whole list or
stops exactly at the first older message whose estimate
(`ceil(length(content)/4)`) would push the running total past the budget;
and whenever more than one message is returned the total estimate fits the
budget (only a lone over-budget most-recent message may exceed it). -/
theorem getContextMessages_spec (s : ConversationMemory) (cid : String)
    (b : Int) (c : Conversation)
    (hc : mapGet s.conversations cid = some c) (hne : c.messages ≠ []) :
    getContextMessages s cid b ≠ [] ∧
    (∃ pre, c.messages = pre ++ getContextMessages s cid b) ∧
    (getContextMessages s cid b).getLast? = c.messages.getLast? ∧
    (getContextMessages s cid b = c.messages ∨
      ∃ pre m, c.messages = pre ++ m :: getContextMessages s cid b ∧
        (sumTokens (getContextMessages s cid b) : Int) +
          (estimatedTokens m : Int) > b) ∧
    (2 ≤ (getContextMessages s cid b).length →
      (sumTokens (getContextMessages s cid b) : Int) ≤ b) := by
  have hg : getContextMessages s cid b = contextFromMessages c.messages b := by
    unfold getContextMessages
    rw [hc]
  rw [hg]
  obtain ⟨t, ⟨l2, hl2⟩, heq, hstop, h4, h5, h6⟩ :=
    ctxAux_spec b c.messages.reverse 0 []
  have hr : contextFromMessages c.messages b = t.reverse := by
    unfold contextFromMessages
    rw [heq]
    simp
  rw [hr]
  have hrevne : c.messages.reverse ≠ [] := by simpa using hne
  have htne : t ≠ [] := h6 rfl hrevne
  have hrne : t.reverse ≠ [] := by simpa using htne
  have hsuffix : c.messages = l2.reverse ++ t.reverse := by
    have h := congrArg List.reverse hl2
    simpa [List.reverse_append] using h
  refine ⟨hrne, ⟨l2.reverse, hsuffix⟩, ?_, ?_, ?_⟩
  · rw [hsuffix]
    exact (getLast_append_ne l2.reverse t.reverse hrne).symm
  · rcases hstop with h | ⟨m, l2', hl', hgt⟩
    · left
      rw [h]
      simp
    · right
      refine ⟨l2'.reverse, m, ?_, ?_⟩
      · have h := congrArg List.reverse hl'
        simpa [List.reverse_append] using h
      · rw [sumTokens_reverse]
        omega
  · intro h2
    rw [sumTokens_reverse]
    have h5' := h5 rfl (by
      rw [← List.length_reverse t]
      exact h2)
    omega

/-- Witness for C1: a two-message conversation and a budget of 1 token. -/
theorem getContextMessages_spec_witness :
    (mapGet
        ((⟨[⟨"c1", "t",
            [⟨"m1", "aaaaaaaa", Role.user, 1, none, none⟩,
             ⟨"m2", "bbbb", Role.assistant, 2, none, none⟩],
            "m", 0, 2⟩], none⟩ : ConversationMemory)).conversations "c1" =
      some ⟨"c1", "t",
        [⟨"m1", "aaaaaaaa", Role.user, 1, none, none⟩,
         ⟨"m2", "bbbb", Role.assistant, 2, none, none⟩], "m", 0, 2⟩) ∧
    ((⟨"c1", "t",
        [⟨"m1", "aaaaaaaa", Role.user, 1, none, none⟩,
         ⟨"m2", "bbbb", Role.assistant, 2, none, none⟩],
        "m", 0, 2⟩ : Conversation).messages ≠ []) ∧
    (getContextMessages
        ⟨[⟨"c1", "t",
          [⟨"m1", "aaaaaaaa", Role.user, 1, none, none⟩,
           ⟨"m2", "bbbb", Role.assistant, 2, none, none⟩],
          "m", 0, 2⟩], none⟩ "c1" 1 ≠ [] ∧
      (∃ pre, (⟨"c1", "t",
          [⟨"m1", "aaaaaaaa", Role.user, 1, none, none⟩,
           ⟨"m2", "bbbb", Role.assistant, 2, none, none⟩],
          "m", 0, 2⟩ : Conversation).messages =
        pre ++ getContextMessages
          ⟨[⟨"c1", "t",
            [⟨"m1", "aaaaaaaa", Role.user, 1, none, none⟩,
             ⟨"m2", "bbbb", Role.assistant, 2, none, none⟩],
            "m", 0, 2⟩], none⟩ "c1" 1) ∧
      (getContextMessages
          ⟨[⟨"c1", "t",
            [⟨"m1", "aaaaaaaa", Role.user, 1, none, none⟩,
             ⟨"m2", "bbbb", Role.assistant, 2, none, none⟩],
            "m", 0, 2⟩], none⟩ "c1" 1).getLast? =
        (⟨"c1", "t",
          [⟨"m1", "aaaaaaaa", Role.user, 1, none, none⟩,
           ⟨"m2", "bbbb", Role.assistant, 2, none, none⟩],
          "m", 0, 2⟩ : Conversation).messages.getLast? ∧
      (getContextMessages
          ⟨[⟨"c1", "t",
            [⟨"m1", "aaaaaaaa", Role.user, 1, none, none⟩,
             ⟨"m2", "bbbb", Role.assistant, 2, none, none⟩],
            "m", 0, 2⟩], none⟩ "c1" 1 =
        (⟨"c1", "t",
          [⟨"m1", "aaaaaaaa", Role.user, 1, none, none⟩,
           ⟨"m2", "bbbb", Role.assistant, 2, none, none⟩],
          "m", 0, 2⟩ : Conversation).messages ∨
        ∃ pre m, (⟨"c1", "t",
            [⟨"m1", "aaaaaaaa", Role.user, 1, none, none⟩,
             ⟨"m2", "bbbb", Role.assistant, 2, none, none⟩],
            "m", 0, 2⟩ : Conversation).messages =
          pre ++ m :: getContextMessages
            ⟨[⟨"c1", "t",
              [⟨"m1", "aaaaaaaa", Role.user, 1, none, none⟩,
               ⟨"m2", "bbbb", Role.assistant, 2, none, none⟩],
              "m", 0, 2⟩], none⟩ "c1" 1 ∧
          (sumTokens (getContextMessages
              ⟨[⟨"c1", "t",
                [⟨"m1", "aaaaaaaa", Role.user, 1, none, none⟩,
                 ⟨"m2", "bbbb", Role.assistant, 2, none, none⟩],
                "m", 0, 2⟩], none⟩ "c1" 1) : Int) +
            (estimatedTokens m : Int) > 1) ∧
      (2 ≤ (getContextMessages
          ⟨[⟨"c1", "t",
            [⟨"m1", "aaaaaaaa", Role.user, 1, none, none⟩,
             ⟨"m2", "bbbb", Role.assistant, 2, none, none⟩],
            "m", 0, 2⟩], none⟩ "c1" 1).length →
        (sumTokens (getContextMessages
            ⟨[⟨"c1", "t",
              [⟨"m1", "aaaaaaaa", Role.user, 1, none, none⟩,
               ⟨"m2", "bbbb", Role.assistant, 2, none, none⟩],
              "m", 0, 2⟩], none⟩ "c1" 1) : Int) ≤ 1)) :=
  ⟨by decide, by decide,
   getContextMessages_spec
     ⟨[⟨"c1", "t",
       [⟨"m1", "aaaaaaaa", Role.user, 1, none, none⟩,
        ⟨"m2", "bbbb", Role.assistant, 2, none, none⟩],
       "m", 0, 2⟩], none⟩ "c1" 1
     ⟨"c1", "t",
       [⟨"m1", "aaaaaaaa", Role.user, 1, none, none⟩,
        ⟨"m2", "bbbb", Role.assistant, 2, none, none⟩],
       "m", 0, 2⟩ (by decide) (by decide)⟩

/-- C9 counterexample: when no OpenRouter credential is configured, the
image handler (given a non-empty prompt) still answers 200 with a
placeholder, but the `fallback: true` marker sits at the top level of the
body — `metadata` has no `fallback` field — so `metadata.fallback` does
not equal `true` for this failure reason. -/
theorem imagePost_noKey_fallback_not_in_metadata :
    (imagePost false "a cat" "black-forest-labs/flux-schnell" "1024x1024"
        UpstreamOutcome.transportError).status = 200 ∧
    (imagePost false "a cat" "black-forest-labs/flux-schnell" "1024x1024"
        UpstreamOutcome.transportError).fallbackTop = some true ∧
    (imagePost false "a cat" "black-forest-labs/flux-schnell" "1024x1024"
        UpstreamOutcome.transportError).metadataFallback = none ∧
    ¬ ((imagePost false "a cat" "black-forest-labs/flux-schnell" "1024x1024"
        UpstreamOutcome.transportError).metadataFallback = some true) := by
  refine ⟨by decide, by decide, by decide, by decide⟩

/-- C9 (amended): with a credential configured, every upstream failure
(non-success status, transport error, or success without image data)
yields HTTP 200, the generated placeholder as the single image, and
`metadata.fallback = true`; without a credential the handler still
returns 200 with the emergency placeholder, but the `fallback: true`
marker is at the top level of the response and `metadata` carries no
`fallback` field. -/
theorem imagePost_fallback_amended (prompt model size : String)
    (outcome : UpstreamOutcome) (hp : prompt ≠ "")
    (hf : isFailureOutcome outcome = true) :
    ((imagePost true prompt model size outcome).status = 200 ∧
      (imagePost true prompt model size outcome).images =
        [{ url := generateAdvancedPlaceholder prompt size, prompt := prompt,
           model := model }] ∧
      (imagePost true prompt model size outcome).metadataFallback = some true) ∧
    ((imagePost false prompt model size outcome).status = 200 ∧
      (imagePost false prompt model size outcome).images =
        [{ url := emergencyPlaceholderUrl, prompt := "Error generating image",
           model := "fallback" }] ∧
      (imagePost false prompt model size outcome).fallbackTop = some true ∧
      (imagePost false prompt model size outcome).metadataFallback = none) := by
  constructor
  · cases outcome with
    | ok urls =>
        have hurls : urls = [] := by
          simpa [isFailureOutcome] using hf
        subst hurls
        simp [imagePost, hp, fallbackImageResponse]
    | httpError => simp [imagePost, hp, fallbackImageResponse]
    | transportError => simp [imagePost, hp, fallbackImageResponse]
  · simp [imagePost, hp]

/-- Witness for C9 (amended): prompt `"a cat"` with an upstream HTTP
error. -/
theorem imagePost_fallback_amended_witness :
    (("a cat" : String) ≠ "") ∧
    (isFailureOutcome UpstreamOutcome.httpError = true) ∧
    (((imagePost true "a cat" "m" "1024x1024" UpstreamOutcome.httpError).status =
        200 ∧
      (imagePost true "a cat" "m" "1024x1024" UpstreamOutcome.httpError).images =
        [{ url := generateAdvancedPlaceholder "a cat" "1024x1024",
           prompt := "a cat", model := "m" }] ∧
      (imagePost true "a cat" "m" "1024x1024"
          UpstreamOutcome.httpError).metadataFallback = some true) ∧
    ((imagePost false "a cat" "m" "1024x1024" UpstreamOutcome.httpError).status =
        200 ∧
      (imagePost false "a cat" "m" "1024x1024" UpstreamOutcome.httpError).images =
        [{ url := emergencyPlaceholderUrl, prompt := "Error generating image",
           model := "fallback" }] ∧
      (imagePost false "a cat" "m" "1024x1024"
          UpstreamOutcome.httpError).fallbackTop = some true ∧
      (imagePost false "a cat" "m" "1024x1024"
          UpstreamOutcome.httpError).metadataFallback = none)) :=
  ⟨by decide, rfl,
   imagePost_fallback_amended "a cat" "m" "1024x1024" UpstreamOutcome.httpError
     (by decide) rfl⟩
